import Mathlib

/-!
Verification of the RabbitMQ messaging layer of the order/email microservice
repository (connection manager, topology provisioning, publisher, consumer).

The JavaScript source is shallowly embedded:
* the JSON wire format (JSON.stringify / JSON.parse on application payloads)
  is modelled by the inductive type Json together with an executable printer
  and an executable recursive-descent parser over character lists
  (Buffer round-trips UTF-8 losslessly for Unicode scalar values, so payload
  bytes are modelled as the decoded character list);
* broker interaction is modelled by traces of BrokerEvent values: each
  channel command issued by the code appends an event, and a Channel oracle
  decides which broker commands succeed;
* the per-delivery consumer callback is modelled as a pure function from the
  delivery and the handler outcome to the list of emitted events;
* the connection module (singleton state, reconnection loop) is modelled as
  an explicit state machine whose while-loop is compiled with the exact
  fuel MAX_RECONNECT_ATTEMPTS - reconnectAttempts.

JSON numbers: JavaScript numbers are IEEE-754 doubles; this embedding models
the integer-valued subdomain exactly (Json.num carries an Int and the parser
accepts integer numerals).  Fractional and exponent numerals, lone-surrogate
escapes, and inter-token whitespace are outside the printed image of the
embedding and are not modelled.
-/

/-! ## JSON values (the application payload domain) -/

/-- A JSON value: the structured payloads serialized by the publisher and
parsed back by the consumer.  Object fields model JavaScript objects, whose
keys are distinct by construction. -/
inductive Json where
  | null
  | bool (b : Bool)
  | num (n : Int)
  | str (s : List Char)
  | arr (elems : List Json)
  | obj (fields : List (List Char × Json))

/-! ## Printing (embedding of JSON.stringify with no indentation) -/

/-- Decimal digit character for a value below ten. -/
def digitChar : Nat → Char
  | 0 => '0' | 1 => '1' | 2 => '2' | 3 => '3' | 4 => '4'
  | 5 => '5' | 6 => '6' | 7 => '7' | 8 => '8' | 9 => '9'
  | _ => '*'

/-- Lowercase hexadecimal digit character, as emitted by JSON.stringify in
\u00xx escapes. -/
def hexDigitChar : Nat → Char
  | 0 => '0' | 1 => '1' | 2 => '2' | 3 => '3' | 4 => '4'
  | 5 => '5' | 6 => '6' | 7 => '7' | 8 => '8' | 9 => '9'
  | 10 => 'a' | 11 => 'b' | 12 => 'c' | 13 => 'd' | 14 => 'e' | 15 => 'f'
  | _ => '*'

/-- Decimal numeral of a natural number, most significant digit first.
The fuel argument makes the recursion structural; it only needs to exceed
the value being printed, which the wrapper below guarantees. -/
def printNatAux : Nat → Nat → List Char
  | 0, _ => []
  | fuel + 1, n =>
    if n < 10 then [digitChar n]
    else printNatAux fuel (n / 10) ++ [digitChar (n % 10)]

/-- Decimal numeral of a natural number, most significant digit first. -/
def printNat (n : Nat) : List Char := printNatAux (n + 1) n

/-- Numeral of an integer, as JSON.stringify prints an integer-valued
JavaScript number. -/
def printInt (n : Int) : List Char :=
  if n < 0 then '-' :: printNat n.natAbs else printNat n.toNat

/-- How JSON.stringify escapes one character inside a string literal:
quote, backslash and the five named control characters get two-character
escapes, the remaining control characters get \u00xx, everything else is
emitted verbatim. -/
def escapeChar (c : Char) : List Char :=
  if c = '"' then ['\\', '"']
  else if c = '\\' then ['\\', '\\']
  else if c = '\x08' then ['\\', 'b']
  else if c = '\t' then ['\\', 't']
  else if c = '\n' then ['\\', 'n']
  else if c = '\x0c' then ['\\', 'f']
  else if c = '\r' then ['\\', 'r']
  else if c.toNat < 0x20 then
    ['\\', 'u', '0', '0', hexDigitChar (c.toNat / 16), hexDigitChar (c.toNat % 16)]
  else [c]

/-- A JSON string literal: quote, escaped characters, quote. -/
def printString (s : List Char) : List Char :=
  '"' :: (s.map escapeChar).flatten ++ ['"']

mutual

/-- Embedding of JSON.stringify (no indentation argument, hence no
whitespace between tokens). -/
def printValue : Json → List Char
  | .null => "null".toList
  | .bool true => "true".toList
  | .bool false => "false".toList
  | .num n => printInt n
  | .str s => printString s
  | .arr [] => ['[', ']']
  | .arr (x :: xs) => '[' :: (printValue x ++ printElemsRest xs) ++ [']']
  | .obj [] => ['\x7b', '\x7d']
  | .obj ((k, v) :: kvs) =>
      '\x7b' :: (printString k ++ ':' :: printValue v ++ printMembersRest kvs) ++ ['\x7d']

/-- Remaining array elements, each preceded by the comma separator. -/
def printElemsRest : List Json → List Char
  | [] => []
  | x :: xs => ',' :: printValue x ++ printElemsRest xs

/-- Remaining object members, each preceded by the comma separator. -/
def printMembersRest : List (List Char × Json) → List Char
  | [] => []
  | (k, v) :: kvs => ',' :: printString k ++ ':' :: printValue v ++ printMembersRest kvs

end

/-- The serialization performed by the publisher (STEP 6 of publishMessage):
JSON.stringify of the payload. -/
def jsonStringify (v : Json) : List Char := printValue v

/-! ## Parsing (embedding of JSON.parse) -/

/-- Value of a hexadecimal digit character, either case (JSON.parse accepts
both in \uXXXX escapes). -/
def hexVal (c : Char) : Option Nat :=
  if c.isDigit then some (c.toNat - 48)
  else if 'a' ≤ c ∧ c ≤ 'f' then some (c.toNat - 97 + 10)
  else if 'A' ≤ c ∧ c ≤ 'F' then some (c.toNat - 70 + 10)
  else none

/-- Value denoted by a nonempty list of decimal digit characters. -/
def digitsToNat (ds : List Char) : Nat :=
  ds.foldl (fun acc c => 10 * acc + (c.toNat - 48)) 0

/-- Parse a decimal numeral: one or more leading digits. -/
def parseNat (cs : List Char) : Option (Nat × List Char) :=
  let ds := cs.takeWhile Char.isDigit
  if ds = [] then none
  else some (digitsToNat ds, cs.dropWhile Char.isDigit)

/-- Parse a JSON number token (integer numerals; see the module comment). -/
def parseNumber (cs : List Char) : Option (Int × List Char) :=
  match cs with
  | '-' :: rest => (parseNat rest).map fun p => (-(p.1 : Int), p.2)
  | _ => (parseNat cs).map fun p => ((p.1 : Int), p.2)

/-- Single-character escapes accepted by JSON.parse after a backslash. -/
def unescapeChar (e : Char) : Option Char :=
  if e = '"' then some '"'
  else if e = '\\' then some '\\'
  else if e = '/' then some '/'
  else if e = 'b' then some '\x08'
  else if e = 'f' then some '\x0c'
  else if e = 'n' then some '\n'
  else if e = 'r' then some '\r'
  else if e = 't' then some '\t'
  else none

/-- Parse the body of a JSON string literal after the opening quote, up to
and including the closing quote.  Unescaped control characters are rejected,
as JSON.parse does.  A \uXXXX escape is mapped through Char.ofNat, which
interprets the code as a Unicode scalar value. -/
def parseStringBody : List Char → Option (List Char × List Char)
  | [] => none
  | c :: rest =>
    if c = '"' then some ([], rest)
    else if c = '\\' then
      match rest with
      | [] => none
      | e :: r =>
        if e = 'u' then
          match r with
          | h1 :: h2 :: h3 :: h4 :: r2 =>
            match hexVal h1, hexVal h2, hexVal h3, hexVal h4 with
            | some a, some b, some c2, some d =>
              (parseStringBody r2).map fun p =>
                (Char.ofNat (((a * 16 + b) * 16 + c2) * 16 + d) :: p.1, p.2)
            | _, _, _, _ => none
          | _ => none
        else
          match unescapeChar e with
          | some u => (parseStringBody r).map fun p => (u :: p.1, p.2)
          | none => none
    else if c.toNat < 0x20 then none
    else (parseStringBody rest).map fun p => (c :: p.1, p.2)

mutual

/-- Recursive-descent embedding of JSON.parse for one value.  The fuel
argument bounds the nesting depth; the top-level entry point passes the
input length plus one, which always suffices (each nesting level consumes at
least one character). -/
def parseValue : Nat → List Char → Option (Json × List Char)
  | 0, _ => none
  | f + 1, cs =>
    match cs with
    | [] => none
    | c :: rest =>
      if c = 'n' then
        match rest with
        | 'u' :: 'l' :: 'l' :: r => some (.null, r)
        | _ => none
      else if c = 't' then
        match rest with
        | 'r' :: 'u' :: 'e' :: r => some (.bool true, r)
        | _ => none
      else if c = 'f' then
        match rest with
        | 'a' :: 'l' :: 's' :: 'e' :: r => some (.bool false, r)
        | _ => none
      else if c = '"' then
        (parseStringBody rest).map fun p => (.str p.1, p.2)
      else if c = '[' then
        match rest with
        | ']' :: r => some (.arr [], r)
        | _ => (parseElems f rest).map fun p => (.arr p.1, p.2)
      else if c = '\x7b' then
        match rest with
        | '\x7d' :: r => some (.obj [], r)
        | _ => (parseMembers f rest).map fun p => (.obj p.1, p.2)
      else if c = '-' ∨ c.isDigit then
        (parseNumber (c :: rest)).map fun p => (.num p.1, p.2)
      else none

/-- Parse the elements of a nonempty array after the opening bracket, up to
and including the closing bracket. -/
def parseElems : Nat → List Char → Option (List Json × List Char)
  | 0, _ => none
  | f + 1, cs =>
    match parseValue f cs with
    | none => none
    | some (v, rest) =>
      match rest with
      | ',' :: r => (parseElems f r).map fun p => (v :: p.1, p.2)
      | ']' :: r => some ([v], r)
      | _ => none

/-- Parse the members of a nonempty object after the opening brace, up to
and including the closing brace. -/
def parseMembers : Nat → List Char → Option (List (List Char × Json) × List Char)
  | 0, _ => none
  | f + 1, cs =>
    match cs with
    | '"' :: rest =>
      match parseStringBody rest with
      | none => none
      | some (k, r1) =>
        match r1 with
        | ':' :: r2 =>
          match parseValue f r2 with
          | none => none
          | some (v, r3) =>
            match r3 with
            | ',' :: r4 => (parseMembers f r4).map fun p => ((k, v) :: p.1, p.2)
            | '\x7d' :: r4 => some ([(k, v)], r4)
            | _ => none
        | _ => none
    | _ => none

end

/-- Embedding of JSON.parse: a parse succeeds when it consumes the whole
input; anything else throws in JavaScript, modelled by none. -/
def jsonParse (cs : List Char) : Option Json :=
  match parseValue (cs.length + 1) cs with
  | some (v, []) => some v
  | _ => none

/-! ## Round-trip: numbers -/

/-- A decimal digit character has code between 48 and 57. -/
theorem isDigit_toNat_bounds (c : Char) (h : c.isDigit = true) :
    48 ≤ c.toNat ∧ c.toNat ≤ 57 := by
  simp only [Char.isDigit, decide_eq_true_eq, Bool.and_eq_true] at h
  obtain ⟨h1, h2⟩ := h
  rw [ge_iff_le, UInt32.le_def, BitVec.le_def] at h1
  rw [UInt32.le_def, BitVec.le_def] at h2
  simp [Char.toNat]
  exact ⟨h1, h2⟩

theorem digitChar_isDigit (d : Nat) (h : d < 10) : (digitChar d).isDigit = true := by
  interval_cases d <;> decide

theorem digitChar_toNat (d : Nat) (h : d < 10) : (digitChar d).toNat = 48 + d := by
  interval_cases d <;> decide

theorem printNatAux_ne_nil (fuel n : Nat) (h : n < fuel) : printNatAux fuel n ≠ [] := by
  match fuel with
  | f + 1 =>
    unfold printNatAux
    split
    · simp
    · simp

theorem printNatAux_digits (fuel : Nat) :
    ∀ n, n < fuel → ∀ c ∈ printNatAux fuel n, c.isDigit = true := by
  induction fuel with
  | zero => omega
  | succ f ih =>
    intro n hn c hc
    unfold printNatAux at hc
    split at hc
    · simp at hc
      subst hc
      exact digitChar_isDigit n (by omega)
    · rw [List.mem_append] at hc
      rcases hc with hc | hc
      · have hdiv : n / 10 < f := by
          have := Nat.div_lt_self (show 0 < n by omega) (show 1 < 10 by omega)
          omega
        exact ih (n / 10) hdiv c hc
      · simp at hc
        subst hc
        exact digitChar_isDigit (n % 10) (Nat.mod_lt n (by omega))

theorem digitsToNat_append_one (l : List Char) (c : Char) :
    digitsToNat (l ++ [c]) = 10 * digitsToNat l + (c.toNat - 48) := by
  simp [digitsToNat, List.foldl_append]

theorem digitsToNat_printNatAux (fuel : Nat) :
    ∀ n, n < fuel → digitsToNat (printNatAux fuel n) = n := by
  induction fuel with
  | zero => omega
  | succ f ih =>
    intro n hn
    unfold printNatAux
    split
    · rename_i hlt
      simp [digitsToNat, digitChar_toNat n hlt]
    · rename_i hge
      have hdiv : n / 10 < f := by
        have := Nat.div_lt_self (show 0 < n by omega) (show 1 < 10 by omega)
        omega
      rw [digitsToNat_append_one, ih (n / 10) hdiv,
        digitChar_toNat (n % 10) (Nat.mod_lt n (by omega))]
      omega

/-- The characters following a printed token must not extend it; for number
tokens this means the remainder does not begin with a digit.  Inside printed
arrays and objects the remainder begins with a separator or closing bracket,
and at top level it is empty. -/
def notDigitStart (cs : List Char) : Prop :=
  ∀ c, cs.head? = some c → c.isDigit = false

theorem takeWhile_append_all {α : Type} (p : α → Bool) (l rest : List α)
    (hl : ∀ c ∈ l, p c = true) (hr : ∀ c, rest.head? = some c → p c = false) :
    (l ++ rest).takeWhile p = l ∧ (l ++ rest).dropWhile p = rest := by
  induction l with
  | nil =>
    simp only [List.nil_append]
    cases rest with
    | nil => simp
    | cons r rs =>
      have := hr r rfl
      simp [List.takeWhile_cons, List.dropWhile_cons, this]
  | cons c l ih =>
    have hc := hl c (by simp)
    have ihl : ∀ c ∈ l, p c = true := fun x hx => hl x (by simp [hx])
    obtain ⟨h1, h2⟩ := ih ihl
    simp [List.takeWhile_cons, List.dropWhile_cons, hc, h1, h2]

theorem parseNat_printNat (n : Nat) (rest : List Char) (hr : notDigitStart rest) :
    parseNat (printNat n ++ rest) = some (n, rest) := by
  have hdig : ∀ c ∈ printNat n, c.isDigit = true :=
    printNatAux_digits (n + 1) n (by omega)
  obtain ⟨h1, h2⟩ := takeWhile_append_all Char.isDigit (printNat n) rest hdig hr
  have hne : printNat n ≠ [] := printNatAux_ne_nil (n + 1) n (by omega)
  simp only [parseNat, h1, h2]
  rw [if_neg hne, show digitsToNat (printNat n) = n from digitsToNat_printNatAux (n + 1) n (by omega)]

theorem isDigit_ne_minus (c : Char) (h : c.isDigit = true) : c ≠ '-' := by
  intro he
  subst he
  simp [Char.isDigit] at h

theorem parseNumber_printInt (n : Int) (rest : List Char) (hr : notDigitStart rest) :
    parseNumber (printInt n ++ rest) = some (n, rest) := by
  by_cases hn : n < 0
  · simp only [printInt, if_pos hn, List.cons_append, parseNumber,
      parseNat_printNat n.natAbs rest hr, Option.map_some']
    have hv : -(n.natAbs : Int) = n := by omega
    rw [hv]
  · rw [printInt, if_neg hn]
    have hne : printNat n.toNat ≠ [] := printNatAux_ne_nil (n.toNat + 1) n.toNat (by omega)
    have hdig : ∀ c ∈ printNat n.toNat, c.isDigit = true :=
      printNatAux_digits (n.toNat + 1) n.toNat (by omega)
    cases hpn : printNat n.toNat with
    | nil => exact absurd hpn hne
    | cons d t =>
      have hd : d.isDigit = true := hdig d (by rw [hpn]; simp)
      have hdm : d ≠ '-' := isDigit_ne_minus d hd
      rw [List.cons_append]
      unfold parseNumber
      split
      · rename_i heq
        exact absurd (by injection heq) hdm
      · rw [← List.cons_append, ← hpn, parseNat_printNat n.toNat rest hr]
        simp
        omega

/-! ## Round-trip: strings -/

theorem hexVal_hexDigitChar (d : Nat) (h : d < 16) : hexVal (hexDigitChar d) = some d := by
  interval_cases d <;> decide

theorem parseStringBody_escape (s rest : List Char) :
    parseStringBody ((s.map escapeChar).flatten ++ '"' :: rest) = some (s, rest) := by
  induction s with
  | nil =>
    simp only [List.map_nil, List.flatten_nil, List.nil_append]
    unfold parseStringBody
    simp
  | cons c s ih =>
    simp only [List.map_cons, List.flatten_cons, List.append_assoc]
    by_cases h1 : c = '"'
    · subst h1
      rw [show escapeChar '"' = ['\\', '"'] from rfl]
      simp only [List.cons_append, List.nil_append]
      unfold parseStringBody
      simp [unescapeChar, ih]
    · by_cases h2 : c = '\\'
      · subst h2
        rw [show escapeChar '\\' = ['\\', '\\'] from rfl]
        simp only [List.cons_append, List.nil_append]
        unfold parseStringBody
        simp [unescapeChar, ih]
      · by_cases h3 : c = '\x08'
        · subst h3
          rw [show escapeChar '\x08' = ['\\', 'b'] from rfl]
          simp only [List.cons_append, List.nil_append]
          unfold parseStringBody
          simp [unescapeChar, ih]
        · by_cases h4 : c = '\t'
          · subst h4
            rw [show escapeChar '\t' = ['\\', 't'] from rfl]
            simp only [List.cons_append, List.nil_append]
            unfold parseStringBody
            simp [unescapeChar, ih]
          · by_cases h5 : c = '\n'
            · subst h5
              rw [show escapeChar '\n' = ['\\', 'n'] from rfl]
              simp only [List.cons_append, List.nil_append]
              unfold parseStringBody
              simp [unescapeChar, ih]
            · by_cases h6 : c = '\x0c'
              · subst h6
                rw [show escapeChar '\x0c' = ['\\', 'f'] from rfl]
                simp only [List.cons_append, List.nil_append]
                unfold parseStringBody
                simp [unescapeChar, ih]
              · by_cases h7 : c = '\r'
                · subst h7
                  rw [show escapeChar '\r' = ['\\', 'r'] from rfl]
                  simp only [List.cons_append, List.nil_append]
                  unfold parseStringBody
                  simp [unescapeChar, ih]
                · by_cases h8 : c.toNat < 0x20
                  · have hq : c.toNat / 16 < 16 := by omega
                    have hm : c.toNat % 16 < 16 := Nat.mod_lt _ (by omega)
                    have hv : c.toNat / 16 * 16 + c.toNat % 16 = c.toNat := by
                      omega
                    simp only [escapeChar, if_neg h1, if_neg h2, if_neg h3, if_neg h4,
                      if_neg h5, if_neg h6, if_neg h7, if_pos h8]
                    simp only [List.cons_append, List.nil_append]
                    unfold parseStringBody
                    simp only [reduceIte]
                    rw [show hexVal '0' = some 0 from rfl,
                      hexVal_hexDigitChar _ hq, hexVal_hexDigitChar _ hm]
                    simp [ih, hv, Char.ofNat_toNat]
                  · have hesc : escapeChar c = [c] := by
                      simp [escapeChar, h1, h2, h3, h4, h5, h6, h7, h8]
                    rw [hesc, List.singleton_append]
                    unfold parseStringBody
                    simp [h1, h2, h8, ih]

/-! ## Round-trip: composite values -/

mutual

/-- Fuel sufficient for parseValue to parse the printed form of a value. -/
def jsonFuel : Json → Nat
  | .null => 1
  | .bool _ => 1
  | .num _ => 1
  | .str _ => 1
  | .arr xs => 1 + elemsFuel xs
  | .obj kvs => 1 + membersFuel kvs

/-- Fuel sufficient for parseElems on a printed nonempty element list. -/
def elemsFuel : List Json → Nat
  | [] => 0
  | x :: xs => 1 + max (jsonFuel x) (elemsFuel xs)

/-- Fuel sufficient for parseMembers on a printed nonempty member list. -/
def membersFuel : List (List Char × Json) → Nat
  | [] => 0
  | (_, v) :: kvs => 1 + max (jsonFuel v) (membersFuel kvs)

end

theorem isDigit_ne_keywords (c : Char) (h : c.isDigit = true) :
    c ≠ 'n' ∧ c ≠ 't' ∧ c ≠ 'f' ∧ c ≠ '"' ∧ c ≠ '[' ∧ c ≠ '\x7b' ∧ c ≠ ']' ∧ c ≠ '\x7d' := by
  refine ⟨?_, ?_, ?_, ?_, ?_, ?_, ?_, ?_⟩ <;>
    (intro he; subst he; simp [Char.isDigit] at h)

theorem printInt_head (n : Int) :
    ∃ d t, printInt n = d :: t ∧ (d = '-' ∨ d.isDigit = true) := by
  by_cases hn : n < 0
  · exact ⟨'-', printNat n.natAbs, by simp [printInt, hn], Or.inl rfl⟩
  · rw [printInt, if_neg hn]
    cases hpn : printNat n.toNat with
    | nil => exact absurd hpn (printNatAux_ne_nil (n.toNat + 1) n.toNat (by omega))
    | cons d t =>
      refine ⟨d, t, rfl, Or.inr ?_⟩
      refine printNatAux_digits (n.toNat + 1) n.toNat (by omega) d ?_
      rw [show printNatAux (n.toNat + 1) n.toNat = printNat n.toNat from rfl, hpn]
      simp

/-- The first character of any printed JSON value, used to show that the
parser branches correctly on composite input. -/
theorem printValue_head (v : Json) :
    ∃ c t, printValue v = c :: t ∧
      (c = 'n' ∨ c = 't' ∨ c = 'f' ∨ c = '"' ∨ c = '[' ∨ c = '\x7b' ∨ c = '-' ∨ c.isDigit = true) := by
  cases v with
  | null => exact ⟨'n', _, rfl, by simp⟩
  | bool b => cases b with
    | true => exact ⟨'t', _, rfl, by simp⟩
    | false => exact ⟨'f', _, rfl, by simp⟩
  | num n =>
    obtain ⟨d, t, hp, hd⟩ := printInt_head n
    exact ⟨d, t, by simp [printValue, hp], by tauto⟩
  | str s => exact ⟨'"', _, rfl, by simp⟩
  | arr xs => cases xs with
    | nil => exact ⟨'[', _, rfl, by simp⟩
    | cons x xs => exact ⟨'[', _, rfl, by simp⟩
  | obj kvs => cases kvs with
    | nil => exact ⟨'\x7b', _, rfl, by simp⟩
    | cons kv kvs => exact ⟨'\x7b', (printString kv.1 ++ ':' :: printValue kv.2 ++ printMembersRest kvs) ++ ['\x7d'], by cases kv; rfl, by simp⟩

theorem printValue_head_ne (v : Json) :
    ∃ c t, printValue v = c :: t ∧ c ≠ ']' ∧ c ≠ '\x7d' := by
  obtain ⟨c, t, hp, hc⟩ := printValue_head v
  refine ⟨c, t, hp, ?_, ?_⟩ <;>
    (rcases hc with h | h | h | h | h | h | h | h <;>
      first
      | (subst h; decide)
      | (have hnk := isDigit_ne_keywords c h; tauto))

theorem notDigitStart_nil : notDigitStart [] := by
  intro c h
  simp at h

theorem notDigitStart_cons (c : Char) (l : List Char) (h : c.isDigit = false) :
    notDigitStart (c :: l) := by
  intro d hd
  simp at hd
  subst hd
  exact h

theorem jsonFuel_pos (v : Json) : 1 ≤ jsonFuel v := by
  cases v <;> simp [jsonFuel]

theorem parse_print_aux (f : Nat) :
    (∀ v rest, jsonFuel v ≤ f → notDigitStart rest →
        parseValue f (printValue v ++ rest) = some (v, rest))
    ∧ (∀ x xs rest, elemsFuel (x :: xs) ≤ f →
        parseElems f (printValue x ++ printElemsRest xs ++ ']' :: rest) = some (x :: xs, rest))
    ∧ (∀ k v kvs rest, membersFuel ((k, v) :: kvs) ≤ f →
        parseMembers f (printString k ++ ':' :: printValue v ++ printMembersRest kvs ++ '\x7d' :: rest)
          = some ((k, v) :: kvs, rest)) := by
  induction f with
  | zero =>
    refine ⟨fun v rest hf _ => absurd hf (by have := jsonFuel_pos v; omega), ?_, ?_⟩
    · intro x xs rest hf
      simp only [elemsFuel] at hf
      omega
    · intro k v kvs rest hf
      simp only [membersFuel] at hf
      omega
  | succ f ih =>
    obtain ⟨ihv, ihe, ihm⟩ := ih
    refine ⟨?_, ?_, ?_⟩
    · -- parseValue on a printed value
      intro v rest hf hnd
      cases v with
      | null =>
        rw [show printValue .null = ['n', 'u', 'l', 'l'] from rfl]
        unfold parseValue
        simp
      | bool b =>
        cases b with
        | true =>
          rw [show printValue (.bool true) = ['t', 'r', 'u', 'e'] from rfl]
          unfold parseValue
          simp
        | false =>
          rw [show printValue (.bool false) = ['f', 'a', 'l', 's', 'e'] from rfl]
          unfold parseValue
          simp
      | num n =>
        obtain ⟨d, t, hp, hd⟩ := printInt_head n
        rw [show printValue (.num n) = printInt n from rfl, hp, List.cons_append]
        have hne : d ≠ 'n' ∧ d ≠ 't' ∧ d ≠ 'f' ∧ d ≠ '"' ∧ d ≠ '[' ∧ d ≠ '\x7b' := by
          rcases hd with h | h
          · subst h
            refine ⟨by decide, by decide, by decide, by decide, by decide, by decide⟩
          · have := isDigit_ne_keywords d h
            tauto
        unfold parseValue
        simp only [if_neg hne.1, if_neg hne.2.1, if_neg hne.2.2.1, if_neg hne.2.2.2.1,
          if_neg hne.2.2.2.2.1, if_neg hne.2.2.2.2.2, if_pos hd]
        rw [show d :: (t ++ rest) = (d :: t) ++ rest from rfl, ← hp,
          parseNumber_printInt n rest hnd]
        rfl
      | str s =>
        rw [show printValue (.str s) = printString s from rfl, printString]
        simp only [List.cons_append, List.append_assoc, List.singleton_append]
        unfold parseValue
        simp [parseStringBody_escape s rest]
      | arr xs =>
        cases xs with
        | nil =>
          rw [show printValue (.arr []) = ['[', ']'] from rfl]
          unfold parseValue
          simp
        | cons x xs =>
          rw [show printValue (.arr (x :: xs))
              = '[' :: (printValue x ++ printElemsRest xs) ++ [']'] from rfl]
          simp only [List.cons_append, List.append_assoc, List.singleton_append, List.nil_append]
          unfold parseValue
          obtain ⟨c, t, hpx, hc1, hc2⟩ := printValue_head_ne x
          rw [hpx]
          simp only [List.cons_append]
          have hstep : elemsFuel (x :: xs) ≤ f := by
            simp only [show jsonFuel (.arr (x :: xs)) = 1 + elemsFuel (x :: xs) from rfl] at hf
            omega
          have happ := ihe x xs rest hstep
          rw [hpx] at happ
          simp only [List.cons_append, List.append_assoc, List.nil_append] at happ
          simp only [show ('[' = 'n') = False by decide, show ('[' = 't') = False by decide,
            show ('[' = 'f') = False by decide, show ('[' = '"') = False by decide,
            show ('[' = '[') = True by decide, if_false, if_true]
          split
          · rename_i heq
            injection heq with he1 he2
            exact absurd he1 hc1
          · rw [happ]
            rfl
      | obj kvs =>
        cases kvs with
        | nil =>
          rw [show printValue (.obj []) = ['\x7b', '\x7d'] from rfl]
          unfold parseValue
          simp
        | cons kv kvs =>
          obtain ⟨k, v⟩ := kv
          rw [show printValue (.obj ((k, v) :: kvs))
              = '\x7b' :: (printString k ++ ':' :: printValue v ++ printMembersRest kvs) ++ ['\x7d'] from rfl]
          simp only [List.cons_append, List.append_assoc, List.singleton_append, List.nil_append]
          unfold parseValue
          have hstep : membersFuel ((k, v) :: kvs) ≤ f := by
            simp only [show jsonFuel (.obj ((k, v) :: kvs)) = 1 + membersFuel ((k, v) :: kvs) from rfl] at hf
            omega
          have happ := ihm k v kvs rest hstep
          rw [printString] at happ
          simp only [List.cons_append, List.append_assoc, List.nil_append] at happ
          rw [printString]
          simp only [List.cons_append, List.append_assoc, List.nil_append]
          simp only [show ('\x7b' = 'n') = False by decide, show ('\x7b' = 't') = False by decide,
            show ('\x7b' = 'f') = False by decide, show ('\x7b' = '"') = False by decide,
            show ('\x7b' = '[') = False by decide, show ('\x7b' = '\x7b') = True by decide,
            if_false, if_true]
          split
          · rename_i heq
            injection heq with he1 he2
            exact absurd he1 (by decide)
          · rw [happ]
            rfl
    · -- parseElems on printed elements
      intro x xs rest hf
      have hx : jsonFuel x ≤ f := by
        simp only [elemsFuel] at hf
        omega
      have hnd2 : notDigitStart (printElemsRest xs ++ ']' :: rest) := by
        cases xs with
        | nil =>
          simpa [printElemsRest] using notDigitStart_cons ']' rest (by decide)
        | cons y ys =>
          rw [printElemsRest]
          simp only [List.cons_append]
          exact notDigitStart_cons ',' _ (by decide)
      unfold parseElems
      rw [List.append_assoc, ihv x (printElemsRest xs ++ ']' :: rest) hx hnd2]
      cases xs with
      | nil => simp [printElemsRest]
      | cons y ys =>
        have hys : elemsFuel (y :: ys) ≤ f := by
          simp only [elemsFuel] at hf ⊢
          omega
        simp only [printElemsRest, List.cons_append, List.append_assoc]
        rw [show parseElems f (printValue y ++ (printElemsRest ys ++ ']' :: rest))
            = some (y :: ys, rest) from by
          have := ihe y ys rest hys
          simpa [List.append_assoc] using this]
        rfl
    · -- parseMembers on printed members
      intro k v kvs rest hf
      have hv : jsonFuel v ≤ f := by
        simp only [membersFuel] at hf
        omega
      have hnd2 : notDigitStart (printMembersRest kvs ++ '\x7d' :: rest) := by
        cases kvs with
        | nil =>
          simpa [printMembersRest] using notDigitStart_cons '\x7d' rest (by decide)
        | cons kv kvs =>
          obtain ⟨k2, v2⟩ := kv
          rw [printMembersRest]
          simp only [List.cons_append]
          exact notDigitStart_cons ',' _ (by decide)
      unfold parseMembers
      rw [printString]
      simp only [List.cons_append, List.append_assoc, List.singleton_append, List.nil_append]
      rw [parseStringBody_escape k (':' :: (printValue v ++ (printMembersRest kvs ++ '\x7d' :: rest)))]
      simp only [ihv v (printMembersRest kvs ++ '\x7d' :: rest) hv hnd2]
      cases kvs with
      | nil => simp [printMembersRest]
      | cons kv2 kvs2 =>
        obtain ⟨k2, v2⟩ := kv2
        have hks : membersFuel ((k2, v2) :: kvs2) ≤ f := by
          simp only [membersFuel] at hf ⊢
          omega
        simp only [printMembersRest, List.cons_append, List.append_assoc]
        rw [show parseMembers f (printString k2 ++ ':' :: (printValue v2 ++ (printMembersRest kvs2 ++ '\x7d' :: rest)))
            = some ((k2, v2) :: kvs2, rest) from by
          have := ihm k2 v2 kvs2 rest hks
          simpa [List.append_assoc] using this]
        rfl

mutual

theorem jsonFuel_le_print (v : Json) : jsonFuel v ≤ (printValue v).length + 1 := by
  cases v with
  | null => simp [jsonFuel, printValue]
  | bool b => cases b <;> simp [jsonFuel, printValue]
  | num n => simp [jsonFuel]
  | str s => simp [jsonFuel]
  | arr xs =>
    cases xs with
    | nil => simp [jsonFuel, elemsFuel, printValue]
    | cons x xs =>
      have h1 := jsonFuel_le_print x
      have h2 := elemsFuel_le_print xs
      have h3 : max (jsonFuel x) (elemsFuel xs)
          ≤ (printValue x).length + (printElemsRest xs).length + 1 := by
        refine max_le ?_ ?_ <;> omega
      simp only [jsonFuel, elemsFuel, printValue, List.length_append, List.length_cons]
      omega
  | obj kvs =>
    cases kvs with
    | nil => simp [jsonFuel, membersFuel, printValue]
    | cons kv kvs =>
      obtain ⟨k, v⟩ := kv
      have h1 := jsonFuel_le_print v
      have h2 := membersFuel_le_print kvs
      have h3 : max (jsonFuel v) (membersFuel kvs)
          ≤ (printValue v).length + (printMembersRest kvs).length + 1 := by
        refine max_le ?_ ?_ <;> omega
      simp only [jsonFuel, membersFuel, printValue, List.length_append, List.length_cons]
      omega

theorem elemsFuel_le_print (xs : List Json) : elemsFuel xs ≤ (printElemsRest xs).length + 1 := by
  cases xs with
  | nil => simp [elemsFuel, printElemsRest]
  | cons x xs =>
    have h1 := jsonFuel_le_print x
    have h2 := elemsFuel_le_print xs
    have h3 : max (jsonFuel x) (elemsFuel xs)
        ≤ (printValue x).length + (printElemsRest xs).length + 1 := by
      refine max_le ?_ ?_ <;> omega
    simp only [elemsFuel, printElemsRest, List.length_append, List.length_cons]
    omega

theorem membersFuel_le_print (kvs : List (List Char × Json)) :
    membersFuel kvs ≤ (printMembersRest kvs).length + 1 := by
  cases kvs with
  | nil => simp [membersFuel, printMembersRest]
  | cons kv kvs =>
    obtain ⟨k, v⟩ := kv
    have h1 := jsonFuel_le_print v
    have h2 := membersFuel_le_print kvs
    have h3 : max (jsonFuel v) (membersFuel kvs)
        ≤ (printValue v).length + (printMembersRest kvs).length + 1 := by
      refine max_le ?_ ?_ <;> omega
    simp only [membersFuel, printMembersRest, List.length_append, List.length_cons]
    omega

end

/-- JSON round trip on whole inputs: parsing the printed form of any value
recovers the value exactly. -/
theorem jsonParse_printValue (v : Json) : jsonParse (printValue v) = some v := by
  have hb : jsonFuel v ≤ (printValue v).length + 1 := jsonFuel_le_print v
  have h := (parse_print_aux ((printValue v).length + 1)).1 v [] hb notDigitStart_nil
  rw [List.append_nil] at h
  unfold jsonParse
  rw [h]

/-! ## Topology configuration (rabbitmq/constants.js) -/

/-- Options passed to channel.assertExchange. -/
structure ExchangeOptions where
  durable : Bool
  autoDelete : Bool
deriving DecidableEq

/-- An exchange configuration entry of the EXCHANGES table. -/
structure ExchangeConfig where
  name : String
  type : String
  options : ExchangeOptions
deriving DecidableEq

/-- The dead-letter arguments object carried by a queue configuration
(the x-dead-letter-exchange and x-dead-letter-routing-key keys). -/
structure DeadLetterArgs where
  deadLetterExchange : String
  deadLetterRoutingKey : String
deriving DecidableEq

/-- Options passed to channel.assertQueue; arguments is absent (none) for
queues declared without dead-letter wiring, such as the DLQ itself. -/
structure QueueOptions where
  durable : Bool
  autoDelete : Bool
  arguments : Option DeadLetterArgs
deriving DecidableEq

/-- A queue configuration entry of the QUEUES table. -/
structure QueueConfig where
  name : String
  options : QueueOptions
deriving DecidableEq

namespace EXCHANGES

/-- EXCHANGES.ORDER_EXCHANGE from constants.js. -/
def ORDER_EXCHANGE : ExchangeConfig :=
  { name := "order.exchange", type := "direct",
    options := { durable := true, autoDelete := false } }

/-- EXCHANGES.DEAD_LETTER_EXCHANGE from constants.js. -/
def DEAD_LETTER_EXCHANGE : ExchangeConfig :=
  { name := "dlx.exchange", type := "direct",
    options := { durable := true, autoDelete := false } }

end EXCHANGES

namespace QUEUES

/-- QUEUES.EMAIL_QUEUE from constants.js, carrying the dead-letter
arguments that make the broker reroute rejected messages. -/
def EMAIL_QUEUE : QueueConfig :=
  { name := "email.queue",
    options :=
      { durable := true, autoDelete := false,
        arguments := some
          { deadLetterExchange := "dlx.exchange",
            deadLetterRoutingKey := "email.dlq" } } }

/-- QUEUES.EMAIL_DLQ from constants.js. -/
def EMAIL_DLQ : QueueConfig :=
  { name := "email.dlq",
    options := { durable := true, autoDelete := false, arguments := none } }

end QUEUES

/-- Options attached to every published message (MESSAGE_OPTIONS). -/
structure MessageOptions where
  persistent : Bool
  contentType : String
  contentEncoding : String
deriving DecidableEq

/-- MESSAGE_OPTIONS from constants.js. -/
def MESSAGE_OPTIONS : MessageOptions :=
  { persistent := true, contentType := "application/json",
    contentEncoding := "utf-8" }

/-- Consumer configuration (CONSUMER_OPTIONS). -/
structure ConsumerOptions where
  prefetchCount : Nat
  noAck : Bool
deriving DecidableEq

/-- CONSUMER_OPTIONS from constants.js. -/
def CONSUMER_OPTIONS : ConsumerOptions := { prefetchCount := 1, noAck := false }

/-- findDLQForQueue from publisher.js and consumer.js: the string-keyed
queue-name to DLQ lookup map, containing only the email queue. -/
def findDLQForQueue (queueName : String) : Option QueueConfig :=
  if queueName = QUEUES.EMAIL_QUEUE.name then some QUEUES.EMAIL_DLQ else none

/-! ## Broker commands and the channel oracle -/

/-- One channel command issued to the broker, in issue order. -/
inductive BrokerEvent where
  | assertExchange (name ty : String) (options : ExchangeOptions)
  | assertQueue (name : String) (options : QueueOptions)
  | bindQueue (queue exchange routingKey : String)
  | prefetch (count : Nat)
  | consume (queue : String) (noAck : Bool)
  | publish (exchange routingKey : String) (content : List Char) (options : MessageOptions)
deriving DecidableEq

/-- Errors surfaced by the publish and consume paths.  typeError models the
JavaScript TypeError raised when the dead-letter routing key is read from an
absent arguments object. -/
inductive MqError where
  | notConnected
  | topology (name : String)
  | typeError
  | serialization
deriving DecidableEq

/-- Oracle for broker behaviour: which assertions and bindings the broker
accepts, and the local-buffer acceptance signal returned by
channel.publish. -/
structure Channel where
  exchangeOk : String → Bool
  queueOk : String → Bool
  bindOk : String → Bool
  publishOk : Bool

/-- A channel that accepts every command, with a full confirmation of the
publish into the local send buffer. -/
def allOkChannel : Channel :=
  { exchangeOk := fun _ => true, queueOk := fun _ => true,
    bindOk := fun _ => true, publishOk := true }

/-- A JavaScript value handed to publishMessage as the message payload:
either JSON-serializable, or a value on which JSON.stringify throws
(circular reference or BigInt). -/
inductive JsValue where
  | json (v : Json)
  | unserializable

/-- JSON.stringify as used in STEP 6 of publishMessage: succeeds exactly on
serializable values. -/
def jsStringify : JsValue → Option (List Char)
  | .json v => some (printValue v)
  | .unserializable => none

/-- STEPS 1-5 shared verbatim by publishMessage (publisher.js) and
consumeMessages (consumer.js): assert the dead-letter exchange, assert and
bind the dead-letter queue when the queue name is in the DLQ map, assert
the main exchange, assert the main queue, bind the main queue.  Returns the
events issued (a failing command is still issued, then aborts the call). -/
def assertTopology (channel : Channel) (exchangeConfig : ExchangeConfig)
    (queueConfig : QueueConfig) (routingKey : String) :
    Except MqError Unit × List BrokerEvent :=
  -- STEP 1: assert dead letter exchange
  let e1 := BrokerEvent.assertExchange EXCHANGES.DEAD_LETTER_EXCHANGE.name
    EXCHANGES.DEAD_LETTER_EXCHANGE.type EXCHANGES.DEAD_LETTER_EXCHANGE.options
  if channel.exchangeOk EXCHANGES.DEAD_LETTER_EXCHANGE.name = false then
    (.error (.topology EXCHANGES.DEAD_LETTER_EXCHANGE.name), [e1])
  else
    -- STEP 2: assert dead letter queue and bind it to the DLX
    let step2 : Except MqError Unit × List BrokerEvent :=
      match findDLQForQueue queueConfig.name with
      | none => (.ok (), [])
      | some dlqConfig =>
        let e2 := BrokerEvent.assertQueue dlqConfig.name dlqConfig.options
        if channel.queueOk dlqConfig.name = false then
          (.error (.topology dlqConfig.name), [e2])
        else
          match queueConfig.options.arguments with
          | none => (.error .typeError, [e2])
          | some args =>
            let e3 := BrokerEvent.bindQueue dlqConfig.name
              EXCHANGES.DEAD_LETTER_EXCHANGE.name args.deadLetterRoutingKey
            if channel.bindOk dlqConfig.name = false then
              (.error (.topology dlqConfig.name), [e2, e3])
            else (.ok (), [e2, e3])
    match step2 with
    | (.error err, tr) => (.error err, e1 :: tr)
    | (.ok _, tr2) =>
      -- STEP 3: assert main exchange
      let e4 := BrokerEvent.assertExchange exchangeConfig.name
        exchangeConfig.type exchangeConfig.options
      if channel.exchangeOk exchangeConfig.name = false then
        (.error (.topology exchangeConfig.name), e1 :: tr2 ++ [e4])
      else
        -- STEP 4: assert main queue
        let e5 := BrokerEvent.assertQueue queueConfig.name queueConfig.options
        if channel.queueOk queueConfig.name = false then
          (.error (.topology queueConfig.name), e1 :: tr2 ++ [e4, e5])
        else
          -- STEP 5: bind main queue to main exchange
          let e6 := BrokerEvent.bindQueue queueConfig.name exchangeConfig.name routingKey
          if channel.bindOk queueConfig.name = false then
            (.error (.topology queueConfig.name), e1 :: tr2 ++ [e4, e5, e6])
          else (.ok (), e1 :: tr2 ++ [e4, e5, e6])

/-- publishMessage from publisher.js: obtain the channel, run STEPS 1-5,
serialize the payload (STEP 6), issue the publish command (STEP 7) and
return the local buffering acceptance signal of channel.publish. -/
def publishMessage (channelHandle : Option Channel) (exchangeConfig : ExchangeConfig)
    (queueConfig : QueueConfig) (routingKey : String) (message : JsValue) :
    Except MqError Bool × List BrokerEvent :=
  match channelHandle with
  | none => (.error .notConnected, [])
  | some channel =>
    match assertTopology channel exchangeConfig queueConfig routingKey with
    | (.error err, tr) => (.error err, tr)
    | (.ok _, tr) =>
      -- STEP 6: serialize message
      match jsStringify message with
      | none => (.error .serialization, tr)
      | some messageBuffer =>
        -- STEP 7: publish message
        (.ok channel.publishOk,
          tr ++ [BrokerEvent.publish exchangeConfig.name routingKey
            messageBuffer MESSAGE_OPTIONS])

/-- consumeMessages from consumer.js, up to the subscription: obtain the
channel, run STEPS 1-5, set the prefetch count (STEP 6) and begin consuming
with manual acknowledgement (STEP 7).  The callback registered at STEP 7 is
modelled separately by consumerCallback. -/
def consumeMessages (channelHandle : Option Channel) (exchangeConfig : ExchangeConfig)
    (queueConfig : QueueConfig) (routingKey : String) :
    Except MqError Unit × List BrokerEvent :=
  match channelHandle with
  | none => (.error .notConnected, [])
  | some channel =>
    match assertTopology channel exchangeConfig queueConfig routingKey with
    | (.error err, tr) => (.error err, tr)
    | (.ok _, tr) =>
      (.ok (),
        tr ++ [BrokerEvent.prefetch CONSUMER_OPTIONS.prefetchCount,
          BrokerEvent.consume queueConfig.name CONSUMER_OPTIONS.noAck])

/-! ## The per-delivery consumer callback (consumer.js STEP 7) -/

/-- A delivery handed to the consumer callback; content is the payload
(msg.content decoded from UTF-8 bytes). -/
structure Delivery where
  content : List Char

/-- deserializeMessage from consumer.js: msg.content.toString() followed by
JSON.parse; a parse failure throws, modelled by none. -/
def deserializeMessage (msg : Delivery) : Option Json :=
  jsonParse msg.content

/-- Outcome of one invocation of the application handler (onMessage):
it returns a value whose truthiness is recorded, or it throws. -/
inductive HandlerOutcome where
  | ret (truthy : Bool)
  | thrown
deriving DecidableEq

/-- Observable actions of the consumer callback, in order: the handler
invocation and the terminal broker decision.  nack records the allUpTo and
requeue arguments of channel.nack. -/
inductive CallbackEvent where
  | handlerCall
  | ack
  | nack (allUpTo requeue : Bool)
deriving DecidableEq

/-- The async callback installed by channel.consume in consumeMessages:
a null message is a no-op; otherwise the payload is deserialized (a failure
is caught and the message is nacked without requeue), the handler is
invoked, and its outcome is converted into ack, or nack without requeue on
a falsy result or a thrown error.  The deserializer is a parameter so that
the theorems cover every deserialization behaviour; the service instantiates
it with deserializeMessage. -/
def consumerCallback {α : Type} (deserialize : Delivery → Option α)
    (onMessage : α → HandlerOutcome) (msg : Option Delivery) : List CallbackEvent :=
  match msg with
  | none => []
  | some m =>
    match deserialize m with
    | none => [.nack false false]
    | some messageContent =>
      match onMessage messageContent with
      | .ret true => [.handlerCall, .ack]
      | .ret false => [.handlerCall, .nack false false]
      | .thrown => [.handlerCall, .nack false false]

/-- Is an event a terminal broker decision (ack or nack)? -/
def isDecision : CallbackEvent → Bool
  | .handlerCall => false
  | .ack => true
  | .nack _ _ => true

/-! ## Connection manager (connection.js) -/

/-- MAX_RECONNECT_ATTEMPTS from connection.js. -/
def MAX_RECONNECT_ATTEMPTS : Nat := 10

/-- RECONNECT_DELAY_MS from connection.js. -/
def RECONNECT_DELAY_MS : Nat := 5000

/-- The module-level singleton state of connection.js: the connection and
channel handles and the reconnection bookkeeping. -/
structure ConnState where
  connected : Bool
  channelOpen : Bool
  reconnectAttempts : Nat
  isReconnecting : Bool
deriving DecidableEq

/-- Observable actions of the reconnection loop. -/
inductive ConnEvent where
  | wait (ms : Nat)
  | connectAttempt (success : Bool)
deriving DecidableEq

/-- The while loop of handleReconnection, compiled with fuel equal to
MAX_RECONNECT_ATTEMPTS - reconnectAttempts, which is exact: the loop guard
reconnectAttempts < MAX_RECONNECT_ATTEMPTS fails precisely when the fuel is
zero, and each iteration increments the counter and decrements the fuel.
outcome gives the result of the amqp.connect call of each attempt, indexed
by the attempt counter; channel recreation after a successful reconnect is
modelled as succeeding.  Returns the final counter, whether an attempt
succeeded, and the emitted events. -/
def reconnectLoop (outcome : Nat → Bool) : Nat → Nat → Nat × Bool × List ConnEvent
  | 0, attempts => (attempts, false, [])
  | fuel + 1, attempts =>
    let a := attempts + 1
    if outcome a then
      (0, true, [.wait RECONNECT_DELAY_MS, .connectAttempt true])
    else
      let r := reconnectLoop outcome fuel a
      (r.1, r.2.1, .wait RECONNECT_DELAY_MS :: .connectAttempt false :: r.2.2)

/-- handleReconnection from connection.js: a no-op when a reconnection loop
is already running (single-flight guard); otherwise runs the bounded retry
loop, each iteration waiting RECONNECT_DELAY_MS before the attempt.  On
success the counter is reset to zero and the connection and channel are
re-established; on exhaustion the procedure gives up, leaving the counter
at MAX_RECONNECT_ATTEMPTS. -/
def handleReconnection (outcome : Nat → Bool) (st : ConnState) :
    ConnState × List ConnEvent :=
  if st.isReconnecting then (st, [])
  else
    let r := reconnectLoop outcome (MAX_RECONNECT_ATTEMPTS - st.reconnectAttempts)
      st.reconnectAttempts
    if r.2.1 then
      ({ connected := true, channelOpen := true, reconnectAttempts := 0,
         isReconnecting := false }, r.2.2)
    else
      ({ st with reconnectAttempts := r.1, isReconnecting := false }, r.2.2)

/-- The events that can drive the connection module: an application call to
connect(url), a connection error event, and a connection close event.  Each
carries the outcomes of the amqp.connect calls it may trigger. -/
inductive ConnTrigger where
  | connectCall (outcome : Bool) (reconOutcomes : Nat → Bool)
  | connError (reconOutcomes : Nat → Bool)
  | connClose (reconOutcomes : Nat → Bool)

/-- connect from connection.js: returns the existing connection when one is
present; otherwise attempts amqp.connect.  On success the counters reset;
on failure it awaits handleReconnection and then rethrows the connection
error to its caller (the returned flag records that the error surfaced). -/
def connect (st : ConnState) (outcome : Bool) (reconOutcomes : Nat → Bool) :
    ConnState × Bool :=
  if st.connected then (st, false)
  else if outcome then
    ({ st with connected := true, reconnectAttempts := 0, isReconnecting := false },
      false)
  else
    ((handleReconnection reconOutcomes st).1, true)

/-- One step of the connection module: how each trigger is handled, and
whether an error is surfaced (thrown) to a caller of connect.  The error
and close observers installed by setupConnectionHandlers call
handleReconnection (guarded) and never rethrow; the close observer clears
the connection and channel first. -/
def connTriggerStep (st : ConnState) : ConnTrigger → ConnState × Bool
  | .connectCall outcome reconOutcomes => connect st outcome reconOutcomes
  | .connError reconOutcomes =>
    (if st.isReconnecting then st else (handleReconnection reconOutcomes st).1, false)
  | .connClose reconOutcomes =>
    let st1 := { st with connected := false, channelOpen := false }
    (if st1.isReconnecting then st1 else (handleReconnection reconOutcomes st1).1, false)

/-- Run a sequence of triggers from a starting state, recording for each
trigger whether a connection error surfaced to a caller of connect. -/
def runConnTriggers (st : ConnState) : List ConnTrigger → ConnState × List Bool
  | [] => (st, [])
  | t :: ts =>
    let r1 := connTriggerStep st t
    let r2 := runConnTriggers r1.1 ts
    (r2.1, r1.2 :: r2.2)

/-- The state of the connection module at process start: no connection, no
channel, zero reconnection attempts. -/
def initialConnState : ConnState :=
  { connected := false, channelOpen := false, reconnectAttempts := 0,
    isReconnecting := false }

/-! ## Claim theorems: consumer callback -/

/-- C1: for every non-null delivery handed to the consumer callback
installed by consumeMessages, exactly one terminal decision (ack or nack)
is issued, on every code path: handler truthy, handler falsy, handler
throws, deserialization fails — never both decisions and never zero. -/
theorem consumer_delivery_exactly_one_decision {α : Type}
    (deserialize : Delivery → Option α) (onMessage : α → HandlerOutcome)
    (d : Delivery) :
    ((consumerCallback deserialize onMessage (some d)).filter isDecision).length = 1 := by
  cases h : deserialize d with
  | none => simp [consumerCallback, h, isDecision]
  | some p =>
    cases ho : onMessage p with
    | ret t => cases t <;> simp [consumerCallback, h, ho, isDecision]
    | thrown => simp [consumerCallback, h, ho, isDecision]

/-- C2: for every delivery processed by the consumer callback, a truthy
handler outcome leads to channel.ack, and a falsy outcome or a thrown error
leads to channel.nack(msg, false, false) — rejected without requeue, hence
routed to the configured dead-letter exchange. -/
theorem consumer_decision_mapping {α : Type}
    (deserialize : Delivery → Option α) (onMessage : α → HandlerOutcome)
    (d : Delivery) (p : α) (h : deserialize d = some p) :
    (onMessage p = .ret true →
      consumerCallback deserialize onMessage (some d)
        = [.handlerCall, .ack])
    ∧ (onMessage p = .ret false →
      consumerCallback deserialize onMessage (some d)
        = [.handlerCall, .nack false false])
    ∧ (onMessage p = .thrown →
      consumerCallback deserialize onMessage (some d)
        = [.handlerCall, .nack false false]) := by
  refine ⟨?_, ?_, ?_⟩ <;> (intro ho; simp [consumerCallback, h, ho])

theorem consumer_decision_mapping_witness :
    consumerCallback deserializeMessage (fun _ => HandlerOutcome.ret true)
      (some ⟨['n', 'u', 'l', 'l']⟩) = [.handlerCall, .ack] :=
  (consumer_decision_mapping deserializeMessage (fun _ => HandlerOutcome.ret true)
    ⟨['n', 'u', 'l', 'l']⟩ Json.null rfl).1 rfl

/-- C3: a delivery whose payload does not deserialize is rejected without
requeue and the application handler is never invoked; a null delivery
signal produces no handler invocation, no ack and no nack. -/
theorem consumer_malformed_and_null_delivery {α : Type}
    (deserialize : Delivery → Option α) (onMessage : α → HandlerOutcome)
    (d : Delivery) (h : deserialize d = none) :
    consumerCallback deserialize onMessage (some d) = [.nack false false]
    ∧ CallbackEvent.handlerCall ∉ consumerCallback deserialize onMessage (some d)
    ∧ consumerCallback deserialize onMessage none = ([] : List CallbackEvent) := by
  refine ⟨?_, ?_, rfl⟩ <;> simp [consumerCallback, h]

theorem consumer_malformed_and_null_delivery_witness :
    consumerCallback deserializeMessage (fun _ => HandlerOutcome.ret true)
      (some ⟨['x']⟩) = [.nack false false] :=
  (consumer_malformed_and_null_delivery deserializeMessage
    (fun _ => HandlerOutcome.ret true) ⟨['x']⟩ rfl).1

/-- C8: serialization followed by deserialization is the identity on
JSON-representable payloads: deserializeMessage on the consumer side applied to
the bytes the publisher serializes (JSON.stringify) recovers the payload
exactly. -/
theorem serialize_deserialize_roundtrip (v : Json) :
    jsStringify (.json v) = some (jsonStringify v)
    ∧ deserializeMessage ⟨jsonStringify v⟩ = some v :=
  ⟨rfl, jsonParse_printValue v⟩

/-! ## Claim theorems: publisher and topology provisioning -/

theorem assertTopology_no_serialization_error (channel : Channel)
    (exchangeConfig : ExchangeConfig) (queueConfig : QueueConfig) (routingKey : String) :
    (assertTopology channel exchangeConfig queueConfig routingKey).1
      ≠ .error .serialization := by
  unfold assertTopology
  repeat' split
  all_goals simp_all

theorem assertTopology_no_publish (channel : Channel)
    (exchangeConfig : ExchangeConfig) (queueConfig : QueueConfig) (routingKey : String)
    (x k : String) (bs : List Char) (o : MessageOptions) :
    BrokerEvent.publish x k bs o ∉ (assertTopology channel exchangeConfig queueConfig routingKey).2 := by
  unfold assertTopology
  repeat' split
  all_goals simp_all

theorem assertTopology_ok_main_queue (channel : Channel)
    (exchangeConfig : ExchangeConfig) (queueConfig : QueueConfig) (routingKey : String)
    (u : Unit)
    (h : (assertTopology channel exchangeConfig queueConfig routingKey).1 = .ok u) :
    BrokerEvent.assertQueue queueConfig.name queueConfig.options
      ∈ (assertTopology channel exchangeConfig queueConfig routingKey).2 := by
  unfold assertTopology at h ⊢
  repeat' split at h
  all_goals simp_all

/-- C4 counterexample: a message on which serialization fails still causes
broker interaction — the whole topology (including the main queue
assertion) is asserted before the SerializationError is raised, refuting
the claim that no exchange/queue assertion or binding is issued. -/
theorem publish_serialization_counterexample :
    (publishMessage (some allOkChannel) EXCHANGES.ORDER_EXCHANGE QUEUES.EMAIL_QUEUE
        "order.created" .unserializable).1 = .error .serialization
    ∧ (publishMessage (some allOkChannel) EXCHANGES.ORDER_EXCHANGE QUEUES.EMAIL_QUEUE
        "order.created" .unserializable).2 ≠ []
    ∧ BrokerEvent.assertQueue QUEUES.EMAIL_QUEUE.name QUEUES.EMAIL_QUEUE.options
        ∈ (publishMessage (some allOkChannel) EXCHANGES.ORDER_EXCHANGE QUEUES.EMAIL_QUEUE
            "order.created" .unserializable).2 := by
  refine ⟨rfl, ?_, ?_⟩ <;> decide

/-- C4 as amended: when publishMessage fails with a SerializationError, the
serializer was the failing step, no publish command has been issued for the
call, and the topology (including the main queue assertion) had already
been asserted — the error is raised after provisioning but before any
publish command. -/
theorem publish_serialization_failure_after_topology
    (channelHandle : Option Channel) (exchangeConfig : ExchangeConfig)
    (queueConfig : QueueConfig) (routingKey : String) (message : JsValue)
    (h : (publishMessage channelHandle exchangeConfig queueConfig routingKey message).1
      = .error .serialization) :
    jsStringify message = none
    ∧ (∀ x k bs o, BrokerEvent.publish x k bs o
        ∉ (publishMessage channelHandle exchangeConfig queueConfig routingKey message).2)
    ∧ BrokerEvent.assertQueue queueConfig.name queueConfig.options
        ∈ (publishMessage channelHandle exchangeConfig queueConfig routingKey message).2 := by
  cases channelHandle with
  | none => simp [publishMessage] at h
  | some channel =>
    cases hT : assertTopology channel exchangeConfig queueConfig routingKey with
    | mk res tr =>
      cases res with
      | error err =>
        exfalso
        simp only [publishMessage, hT] at h
        have hne := assertTopology_no_serialization_error channel exchangeConfig
          queueConfig routingKey
        rw [hT] at hne
        simp at hne h
        exact hne (by rw [h])
      | ok u =>
        cases hs : jsStringify message with
        | none =>
          refine ⟨rfl, ?_, ?_⟩
          · intro x k bs o
            have hnp := assertTopology_no_publish channel exchangeConfig queueConfig
              routingKey x k bs o
            rw [hT] at hnp
            simp only [publishMessage, hT, hs]
            simpa using hnp
          · have hmq := assertTopology_ok_main_queue channel exchangeConfig queueConfig
              routingKey u (by rw [hT])
            rw [hT] at hmq
            simp only [publishMessage, hT, hs]
            simpa using hmq
        | some bs =>
          simp only [publishMessage, hT, hs] at h
          simp at h

theorem publish_serialization_failure_after_topology_witness :
    jsStringify JsValue.unserializable = none
    ∧ (∀ x k bs o, BrokerEvent.publish x k bs o
        ∉ (publishMessage (some allOkChannel) EXCHANGES.ORDER_EXCHANGE QUEUES.EMAIL_QUEUE
            "order.created" JsValue.unserializable).2)
    ∧ BrokerEvent.assertQueue QUEUES.EMAIL_QUEUE.name QUEUES.EMAIL_QUEUE.options
        ∈ (publishMessage (some allOkChannel) EXCHANGES.ORDER_EXCHANGE QUEUES.EMAIL_QUEUE
            "order.created" JsValue.unserializable).2 :=
  publish_serialization_failure_after_topology (some allOkChannel)
    EXCHANGES.ORDER_EXCHANGE QUEUES.EMAIL_QUEUE "order.created"
    JsValue.unserializable rfl

/-- C9: whenever publishMessage returns without an error (topology and
serialization succeeded), the returned boolean is exactly the local
buffering acceptance signal of channel.publish, and the publish command was
the last broker command issued; false can therefore only be returned when
the send buffer of the channel refused the message. -/
theorem publish_returns_buffer_signal (channel : Channel)
    (exchangeConfig : ExchangeConfig) (queueConfig : QueueConfig)
    (routingKey : String) (message : JsValue) (b : Bool)
    (h : (publishMessage (some channel) exchangeConfig queueConfig routingKey message).1
      = .ok b) :
    b = channel.publishOk
    ∧ ∃ bs, jsStringify message = some bs
      ∧ (publishMessage (some channel) exchangeConfig queueConfig routingKey message).2.getLast?
        = some (.publish exchangeConfig.name routingKey bs MESSAGE_OPTIONS) := by
  cases hT : assertTopology channel exchangeConfig queueConfig routingKey with
  | mk res tr =>
    cases res with
    | error err =>
      simp only [publishMessage, hT] at h
      simp at h
    | ok u =>
      cases hs : jsStringify message with
      | none =>
        simp only [publishMessage, hT, hs] at h
        simp at h
      | some bs =>
        simp only [publishMessage, hT, hs] at h ⊢
        simp at h
        exact ⟨h.symm, bs, rfl, by simp⟩

theorem publish_returns_buffer_signal_witness :
    true = allOkChannel.publishOk
    ∧ ∃ bs, jsStringify (.json .null) = some bs
      ∧ (publishMessage (some allOkChannel) EXCHANGES.ORDER_EXCHANGE QUEUES.EMAIL_QUEUE
          "order.created" (.json .null)).2.getLast?
        = some (.publish EXCHANGES.ORDER_EXCHANGE.name "order.created" bs MESSAGE_OPTIONS) :=
  publish_returns_buffer_signal allOkChannel EXCHANGES.ORDER_EXCHANGE
    QUEUES.EMAIL_QUEUE "order.created" (.json .null) true rfl

/-- A queue configuration that carries a dead-letter reference in its
arguments but has no entry in the queue-name-to-DLQ lookup map. -/
def ordersQueue : QueueConfig :=
  { name := "orders.queue",
    options :=
      { durable := true, autoDelete := false,
        arguments := some
          { deadLetterExchange := "dlx.exchange",
            deadLetterRoutingKey := "orders.dlq" } } }

/-- Does an event assert a queue other than the named main queue?  Applied
to a provisioning trace this detects whether any dead-letter queue was
asserted. -/
def isForeignAssertQueue (mainName : String) : BrokerEvent → Bool
  | .assertQueue n _ => n ≠ mainName
  | _ => false

/-- C5 counterexample: ordersQueue carries a dead-letter reference
(x-dead-letter-exchange and x-dead-letter-routing-key), yet provisioning by
publishMessage and by consumeMessages asserts no queue other than the main
queue — no dead-letter queue is asserted at all, let alone before the main
queue — because the queue has no entry in the queue-name-to-DLQ map. -/
theorem dlq_provisioning_counterexample :
    ordersQueue.options.arguments.isSome = true
    ∧ (publishMessage (some allOkChannel) EXCHANGES.ORDER_EXCHANGE ordersQueue
        "order.created" (.json .null)).2.filter (isForeignAssertQueue "orders.queue") = []
    ∧ BrokerEvent.assertQueue "orders.queue" ordersQueue.options
        ∈ (publishMessage (some allOkChannel) EXCHANGES.ORDER_EXCHANGE ordersQueue
            "order.created" (.json .null)).2
    ∧ (consumeMessages (some allOkChannel) EXCHANGES.ORDER_EXCHANGE ordersQueue
        "order.created").2.filter (isForeignAssertQueue "orders.queue") = []
    ∧ BrokerEvent.assertQueue "orders.queue" ordersQueue.options
        ∈ (consumeMessages (some allOkChannel) EXCHANGES.ORDER_EXCHANGE ordersQueue
            "order.created").2 := by
  refine ⟨rfl, ?_, ?_, ?_, ?_⟩ <;> decide

/-- C5 as amended: for every queue configuration that has an entry in the
queue-name-to-DLQ map (and, as in the repository constants, carries the
dead-letter arguments), provisioning by publishMessage and by
consumeMessages asserts the dead-letter exchange first, then the
dead-letter queue bound with the declared dead-letter routing key, and only
then the main exchange, the main queue and the main binding. -/
theorem dlq_provisioned_before_main_queue (channel : Channel)
    (exchangeConfig : ExchangeConfig) (queueConfig dlqConfig : QueueConfig)
    (args : DeadLetterArgs) (routingKey : String) (v : Json)
    (hdlq : findDLQForQueue queueConfig.name = some dlqConfig)
    (hargs : queueConfig.options.arguments = some args)
    (hex : ∀ s, channel.exchangeOk s = true)
    (hqu : ∀ s, channel.queueOk s = true)
    (hbi : ∀ s, channel.bindOk s = true) :
    publishMessage (some channel) exchangeConfig queueConfig routingKey (.json v)
      = (.ok channel.publishOk,
        [.assertExchange "dlx.exchange" "direct" ⟨true, false⟩,
         .assertQueue dlqConfig.name dlqConfig.options,
         .bindQueue dlqConfig.name "dlx.exchange" args.deadLetterRoutingKey,
         .assertExchange exchangeConfig.name exchangeConfig.type exchangeConfig.options,
         .assertQueue queueConfig.name queueConfig.options,
         .bindQueue queueConfig.name exchangeConfig.name routingKey,
         .publish exchangeConfig.name routingKey (printValue v) MESSAGE_OPTIONS])
    ∧ consumeMessages (some channel) exchangeConfig queueConfig routingKey
      = (.ok (),
        [.assertExchange "dlx.exchange" "direct" ⟨true, false⟩,
         .assertQueue dlqConfig.name dlqConfig.options,
         .bindQueue dlqConfig.name "dlx.exchange" args.deadLetterRoutingKey,
         .assertExchange exchangeConfig.name exchangeConfig.type exchangeConfig.options,
         .assertQueue queueConfig.name queueConfig.options,
         .bindQueue queueConfig.name exchangeConfig.name routingKey,
         .prefetch 1, .consume queueConfig.name false]) := by
  constructor <;>
    simp [publishMessage, consumeMessages, assertTopology, hdlq, hargs, hex, hqu, hbi,
      jsStringify, EXCHANGES.DEAD_LETTER_EXCHANGE, CONSUMER_OPTIONS]

theorem dlq_provisioned_before_main_queue_witness :
    publishMessage (some allOkChannel) EXCHANGES.ORDER_EXCHANGE QUEUES.EMAIL_QUEUE
        "order.created" (.json .null)
      = (.ok allOkChannel.publishOk,
        [.assertExchange "dlx.exchange" "direct" ⟨true, false⟩,
         .assertQueue QUEUES.EMAIL_DLQ.name QUEUES.EMAIL_DLQ.options,
         .bindQueue QUEUES.EMAIL_DLQ.name "dlx.exchange" "email.dlq",
         .assertExchange EXCHANGES.ORDER_EXCHANGE.name EXCHANGES.ORDER_EXCHANGE.type
           EXCHANGES.ORDER_EXCHANGE.options,
         .assertQueue QUEUES.EMAIL_QUEUE.name QUEUES.EMAIL_QUEUE.options,
         .bindQueue QUEUES.EMAIL_QUEUE.name EXCHANGES.ORDER_EXCHANGE.name "order.created",
         .publish EXCHANGES.ORDER_EXCHANGE.name "order.created" (printValue .null)
           MESSAGE_OPTIONS])
    ∧ consumeMessages (some allOkChannel) EXCHANGES.ORDER_EXCHANGE QUEUES.EMAIL_QUEUE
        "order.created"
      = (.ok (),
        [.assertExchange "dlx.exchange" "direct" ⟨true, false⟩,
         .assertQueue QUEUES.EMAIL_DLQ.name QUEUES.EMAIL_DLQ.options,
         .bindQueue QUEUES.EMAIL_DLQ.name "dlx.exchange" "email.dlq",
         .assertExchange EXCHANGES.ORDER_EXCHANGE.name EXCHANGES.ORDER_EXCHANGE.type
           EXCHANGES.ORDER_EXCHANGE.options,
         .assertQueue QUEUES.EMAIL_QUEUE.name QUEUES.EMAIL_QUEUE.options,
         .bindQueue QUEUES.EMAIL_QUEUE.name EXCHANGES.ORDER_EXCHANGE.name "order.created",
         .prefetch 1, .consume QUEUES.EMAIL_QUEUE.name false]) :=
  dlq_provisioned_before_main_queue allOkChannel EXCHANGES.ORDER_EXCHANGE
    QUEUES.EMAIL_QUEUE QUEUES.EMAIL_DLQ
    { deadLetterExchange := "dlx.exchange", deadLetterRoutingKey := "email.dlq" }
    "order.created" Json.null rfl rfl (fun _ => rfl) (fun _ => rfl) (fun _ => rfl)

theorem assertTopology_head (channel : Channel) (exchangeConfig : ExchangeConfig)
    (queueConfig : QueueConfig) (routingKey : String) :
    (assertTopology channel exchangeConfig queueConfig routingKey).2.head?
      = some (.assertExchange "dlx.exchange" "direct" ⟨true, false⟩) := by
  unfold assertTopology
  repeat' split
  all_goals simp_all [EXCHANGES.DEAD_LETTER_EXCHANGE]

theorem assertTopology_unmapped (channel : Channel) (exchangeConfig : ExchangeConfig)
    (queueConfig : QueueConfig) (routingKey : String)
    (hm : findDLQForQueue queueConfig.name = none) :
    (∀ n o, BrokerEvent.assertQueue n o
        ∈ (assertTopology channel exchangeConfig queueConfig routingKey).2
      → n = queueConfig.name)
    ∧ (∀ q x k, BrokerEvent.bindQueue q x k
        ∈ (assertTopology channel exchangeConfig queueConfig routingKey).2
      → q = queueConfig.name) := by
  unfold assertTopology
  rw [hm]
  repeat' split
  all_goals constructor
  all_goals intros
  all_goals simp_all

theorem publishMessage_mem_topology (channel : Channel) (exchangeConfig : ExchangeConfig)
    (queueConfig : QueueConfig) (routingKey : String) (message : JsValue) (e : BrokerEvent)
    (he : ∀ x k bs o, e ≠ .publish x k bs o)
    (hmem : e ∈ (publishMessage (some channel) exchangeConfig queueConfig routingKey message).2) :
    e ∈ (assertTopology channel exchangeConfig queueConfig routingKey).2 := by
  cases hT : assertTopology channel exchangeConfig queueConfig routingKey with
  | mk res tr =>
    simp only
    cases res with
    | error err =>
      simp only [publishMessage, hT] at hmem
      exact hmem
    | ok u =>
      cases hs : jsStringify message with
      | none =>
        simp only [publishMessage, hT, hs] at hmem
        exact hmem
      | some bs =>
        simp only [publishMessage, hT, hs, List.mem_append, List.mem_singleton] at hmem
        rcases hmem with h | h
        · exact h
        · exact absurd h (he exchangeConfig.name routingKey bs MESSAGE_OPTIONS)

theorem consumeMessages_mem_topology (channel : Channel) (exchangeConfig : ExchangeConfig)
    (queueConfig : QueueConfig) (routingKey : String) (e : BrokerEvent)
    (he1 : ∀ n, e ≠ .prefetch n) (he2 : ∀ q b, e ≠ .consume q b)
    (hmem : e ∈ (consumeMessages (some channel) exchangeConfig queueConfig routingKey).2) :
    e ∈ (assertTopology channel exchangeConfig queueConfig routingKey).2 := by
  cases hT : assertTopology channel exchangeConfig queueConfig routingKey with
  | mk res tr =>
    simp only
    cases res with
    | error err =>
      simp only [consumeMessages, hT] at hmem
      exact hmem
    | ok u =>
      simp only [consumeMessages, hT, List.mem_append, List.mem_cons,
        List.mem_singleton] at hmem
      rcases hmem with h | h | h
      · exact h
      · exact absurd h (he1 CONSUMER_OPTIONS.prefetchCount)
      · rcases h with h | h
        · exact absurd h (he2 queueConfig.name CONSUMER_OPTIONS.noAck)
        · simp at h

/-- C10: every call of publishMessage and of consumeMessages asserts the
dead-letter exchange dlx.exchange unconditionally, as the first broker
command; when the target queue has no entry in the queue-name-to-DLQ map,
no queue other than the main queue is asserted and no queue other than the
main queue is bound — the dead-letter queue and its binding to the
dead-letter exchange are skipped entirely. -/
theorem dlx_asserted_unconditionally :
    (∀ (channel : Channel) (exchangeConfig : ExchangeConfig) (queueConfig : QueueConfig)
        (routingKey : String) (message : JsValue),
      (publishMessage (some channel) exchangeConfig queueConfig routingKey message).2.head?
        = some (.assertExchange "dlx.exchange" "direct" ⟨true, false⟩)
      ∧ (consumeMessages (some channel) exchangeConfig queueConfig routingKey).2.head?
        = some (.assertExchange "dlx.exchange" "direct" ⟨true, false⟩))
    ∧ (∀ (channel : Channel) (exchangeConfig : ExchangeConfig) (queueConfig : QueueConfig)
        (routingKey : String) (message : JsValue),
      findDLQForQueue queueConfig.name = none →
      (∀ n o, BrokerEvent.assertQueue n o
          ∈ (publishMessage (some channel) exchangeConfig queueConfig routingKey message).2
        → n = queueConfig.name)
      ∧ (∀ q x k, BrokerEvent.bindQueue q x k
          ∈ (publishMessage (some channel) exchangeConfig queueConfig routingKey message).2
        → q = queueConfig.name)
      ∧ (∀ n o, BrokerEvent.assertQueue n o
          ∈ (consumeMessages (some channel) exchangeConfig queueConfig routingKey).2
        → n = queueConfig.name)
      ∧ (∀ q x k, BrokerEvent.bindQueue q x k
          ∈ (consumeMessages (some channel) exchangeConfig queueConfig routingKey).2
        → q = queueConfig.name)) := by
  constructor
  · intro channel exchangeConfig queueConfig routingKey message
    have hh := assertTopology_head channel exchangeConfig queueConfig routingKey
    cases hT : assertTopology channel exchangeConfig queueConfig routingKey with
    | mk res tr =>
      rw [hT] at hh
      simp only at hh
      cases res with
      | error err =>
        constructor
        · simp only [publishMessage, hT]
          exact hh
        · simp only [consumeMessages, hT]
          exact hh
      | ok u =>
        constructor
        · cases hs : jsStringify message with
          | none =>
            simp only [publishMessage, hT, hs]
            exact hh
          | some bs =>
            simp only [publishMessage, hT, hs, List.head?_append, hh]
            rfl
        · simp only [consumeMessages, hT, List.head?_append, hh]
          rfl
  · intro channel exchangeConfig queueConfig routingKey message hm
    have hu := assertTopology_unmapped channel exchangeConfig queueConfig routingKey hm
    obtain ⟨hu1, hu2⟩ := hu
    refine ⟨?_, ?_, ?_, ?_⟩
    · intro n o hmem
      exact hu1 n o (publishMessage_mem_topology channel exchangeConfig queueConfig
        routingKey message _ (by intro x k bs o2; simp) hmem)
    · intro q x k hmem
      exact hu2 q x k (publishMessage_mem_topology channel exchangeConfig queueConfig
        routingKey message _ (by intro x2 k2 bs o2; simp) hmem)
    · intro n o hmem
      exact hu1 n o (consumeMessages_mem_topology channel exchangeConfig queueConfig
        routingKey _ (by intro n2; simp) (by intro q2 b2; simp) hmem)
    · intro q x k hmem
      exact hu2 q x k (consumeMessages_mem_topology channel exchangeConfig queueConfig
        routingKey _ (by intro n2; simp) (by intro q2 b2; simp) hmem)

theorem dlx_asserted_unconditionally_witness :
    (publishMessage (some allOkChannel) EXCHANGES.ORDER_EXCHANGE ordersQueue
        "order.created" (.json .null)).2.head?
      = some (.assertExchange "dlx.exchange" "direct" ⟨true, false⟩)
    ∧ BrokerEvent.assertQueue "email.dlq" QUEUES.EMAIL_DLQ.options
        ∉ (publishMessage (some allOkChannel) EXCHANGES.ORDER_EXCHANGE ordersQueue
            "order.created" (.json .null)).2 := by
  constructor
  · exact (dlx_asserted_unconditionally.1 allOkChannel EXCHANGES.ORDER_EXCHANGE
      ordersQueue "order.created" (.json .null)).1
  · intro hmem
    have hcontra := (dlx_asserted_unconditionally.2 allOkChannel EXCHANGES.ORDER_EXCHANGE
      ordersQueue "order.created" (.json .null) (by decide)).1
      "email.dlq" QUEUES.EMAIL_DLQ.options hmem
    simp [ordersQueue] at hcontra

/-! ## Claim theorems: connection manager -/

/-- Is a connection event an amqp.connect attempt? -/
def isAttempt : ConnEvent → Bool
  | .connectAttempt _ => true
  | .wait _ => false

theorem reconnectLoop_attempts_le (outcome : Nat → Bool) :
    ∀ fuel attempts,
      (((reconnectLoop outcome fuel attempts).2.2.filter isAttempt).length ≤ fuel) := by
  intro fuel
  induction fuel with
  | zero => intro attempts; simp [reconnectLoop]
  | succ f ih =>
    intro attempts
    unfold reconnectLoop
    dsimp only
    split
    · simp [isAttempt]
    · have := ih (attempts + 1)
      simp [isAttempt]
      omega

theorem reconnectLoop_shape (outcome : Nat → Bool) :
    ∀ fuel attempts, ∃ bs : List Bool,
      (reconnectLoop outcome fuel attempts).2.2
        = (bs.map fun b => [ConnEvent.wait RECONNECT_DELAY_MS,
            ConnEvent.connectAttempt b]).flatten := by
  intro fuel
  induction fuel with
  | zero => intro attempts; exact ⟨[], rfl⟩
  | succ f ih =>
    intro attempts
    unfold reconnectLoop
    dsimp only
    split
    · exact ⟨[true], rfl⟩
    · obtain ⟨bs, hbs⟩ := ih (attempts + 1)
      refine ⟨false :: bs, ?_⟩
      simp [hbs]

theorem reconnectLoop_success_mem (outcome : Nat → Bool) :
    ∀ fuel attempts,
      ((reconnectLoop outcome fuel attempts).2.1 = true
        ↔ ConnEvent.connectAttempt true ∈ (reconnectLoop outcome fuel attempts).2.2) := by
  intro fuel
  induction fuel with
  | zero => intro attempts; simp [reconnectLoop]
  | succ f ih =>
    intro attempts
    unfold reconnectLoop
    dsimp only
    split
    · simp
    · have := ih (attempts + 1)
      simp [this]

theorem reconnectLoop_fail_final (outcome : Nat → Bool) :
    ∀ fuel attempts,
      ((reconnectLoop outcome fuel attempts).2.1 = false
        → (reconnectLoop outcome fuel attempts).1 = attempts + fuel) := by
  intro fuel
  induction fuel with
  | zero => intro attempts _; simp [reconnectLoop]
  | succ f ih =>
    intro attempts h
    unfold reconnectLoop at h ⊢
    dsimp only at h ⊢
    split at h
    · simp at h
    · rename_i hout
      rw [if_neg hout]
      have := ih (attempts + 1) h
      omega

theorem reconnectLoop_success_final (outcome : Nat → Bool) :
    ∀ fuel attempts,
      ((reconnectLoop outcome fuel attempts).2.1 = true
        → (reconnectLoop outcome fuel attempts).1 = 0) := by
  intro fuel
  induction fuel with
  | zero => intro attempts h; simp [reconnectLoop] at h
  | succ f ih =>
    intro attempts h
    unfold reconnectLoop at h ⊢
    dsimp only at h ⊢
    split at h
    · rename_i hout
      rw [if_pos hout]
    · rename_i hout
      rw [if_neg hout]
      exact ih (attempts + 1) h

/-- C6: the reconnection procedure makes at most MAX_RECONNECT_ATTEMPTS = 10
connection attempts, waits the fixed RECONNECT_DELAY_MS = 5000 millisecond
delay before every attempt (the delay is the same constant each time, not
exponential), resets the attempt counter to zero on a successful
reconnection, and after exhausting all attempts gives up: the counter stays
at the maximum and a subsequent invocation of the procedure makes no
further connection attempts. -/
theorem reconnection_bounded_fixed_delay (outcome retriggerOutcome : Nat → Bool)
    (st : ConnState) (h0 : st.reconnectAttempts = 0) (h1 : st.isReconnecting = false) :
    MAX_RECONNECT_ATTEMPTS = 10
    ∧ RECONNECT_DELAY_MS = 5000
    ∧ ((handleReconnection outcome st).2.filter isAttempt).length ≤ MAX_RECONNECT_ATTEMPTS
    ∧ (∃ bs : List Bool, (handleReconnection outcome st).2
        = (bs.map fun b => [ConnEvent.wait RECONNECT_DELAY_MS,
            ConnEvent.connectAttempt b]).flatten)
    ∧ (ConnEvent.connectAttempt true ∈ (handleReconnection outcome st).2 →
        (handleReconnection outcome st).1.reconnectAttempts = 0
        ∧ (handleReconnection outcome st).1.connected = true)
    ∧ (ConnEvent.connectAttempt true ∉ (handleReconnection outcome st).2 →
        (handleReconnection outcome st).1.reconnectAttempts = MAX_RECONNECT_ATTEMPTS
        ∧ (handleReconnection retriggerOutcome (handleReconnection outcome st).1).2 = []) := by
  have hA := reconnectLoop_attempts_le outcome
    (MAX_RECONNECT_ATTEMPTS - st.reconnectAttempts) st.reconnectAttempts
  have hS := reconnectLoop_shape outcome
    (MAX_RECONNECT_ATTEMPTS - st.reconnectAttempts) st.reconnectAttempts
  have hM := reconnectLoop_success_mem outcome
    (MAX_RECONNECT_ATTEMPTS - st.reconnectAttempts) st.reconnectAttempts
  have hF := reconnectLoop_fail_final outcome
    (MAX_RECONNECT_ATTEMPTS - st.reconnectAttempts) st.reconnectAttempts
  have hSF := reconnectLoop_success_final outcome
    (MAX_RECONNECT_ATTEMPTS - st.reconnectAttempts) st.reconnectAttempts
  rcases hr : reconnectLoop outcome (MAX_RECONNECT_ATTEMPTS - st.reconnectAttempts)
    st.reconnectAttempts with ⟨fa, s, tr⟩
  rw [hr] at hA hS hM hF hSF
  simp only at hA hS hM hF hSF
  unfold handleReconnection
  simp only [h1, Bool.false_eq_true, if_false, hr]
  cases s with
  | true =>
    simp only [reduceIte]
    refine ⟨rfl, rfl, ?_, hS, ?_, ?_⟩
    · omega
    · intro _
      exact ⟨trivial, trivial⟩
    · intro hmem
      exact absurd (hM.mp rfl) hmem
  | false =>
    simp only [Bool.false_eq_true, if_false]
    have hfa : fa = MAX_RECONNECT_ATTEMPTS := by
      have := hF rfl
      omega
    refine ⟨rfl, rfl, ?_, hS, ?_, ?_⟩
    · omega
    · intro hmem
      exact absurd (hM.mpr hmem) (by simp)
    · intro _
      refine ⟨by simp [hfa], ?_⟩
      simp [handleReconnection, reconnectLoop, hfa]

theorem reconnection_bounded_fixed_delay_witness :
    ((handleReconnection (fun _ => false) initialConnState).2.filter isAttempt).length
      ≤ MAX_RECONNECT_ATTEMPTS
    ∧ (handleReconnection (fun _ => false) initialConnState).1.reconnectAttempts
      = MAX_RECONNECT_ATTEMPTS := by
  have h := reconnection_bounded_fixed_delay (fun _ => false) (fun _ => false)
    initialConnState rfl rfl
  exact ⟨h.2.2.1, (h.2.2.2.2.2 (by decide)).1⟩

theorem connTriggerStep_surfaced (st : ConnState) (t : ConnTrigger)
    (h : (connTriggerStep st t).2 = true) :
    ∃ o ro, t = .connectCall o ro := by
  cases t with
  | connectCall o ro => exact ⟨o, ro, rfl⟩
  | connError ro => simp [connTriggerStep] at h
  | connClose ro => simp [connTriggerStep] at h

theorem runConnTriggers_no_connectCall (ts : List ConnTrigger) :
    ∀ st, (∀ i o ro, ts.get? i ≠ some (.connectCall o ro)) →
      ∀ i, (runConnTriggers st ts).2.get? i ≠ some true := by
  induction ts with
  | nil =>
    intro st _ i
    simp [runConnTriggers]
  | cons t ts ih =>
    intro st h i
    simp only [runConnTriggers]
    cases i with
    | zero =>
      simp only [List.get?_cons_zero, ne_eq, Option.some.injEq]
      intro hc
      obtain ⟨o, ro, hto⟩ := connTriggerStep_surfaced st t hc
      exact h 0 o ro (by simp [hto])
    | succ i =>
      simp only [List.get?_cons_succ]
      exact ih (connTriggerStep st t).1
        (fun j o ro => by have := h (j + 1) o ro; simpa using this) i

/-- C7: a connection error is thrown to a caller of connect only at the
very first trigger of the process lifetime — the single startup connect
call made by the server entry point.  Every later connection failure
(transport error or closure event, or a failing attempt inside the
reconnection loop) is handled by the reconnection procedure and surfaces to
no caller of connect; and the startup connect call does surface its error
when its own broker connection attempt fails. -/
theorem connect_error_surfaced_only_first (ts : List ConnTrigger)
    (hw : ∀ i o ro, 0 < i → ts.get? i ≠ some (.connectCall o ro)) :
    (∀ i, (runConnTriggers initialConnState ts).2.get? i = some true → i = 0)
    ∧ (∀ ro, ts.get? 0 = some (.connectCall false ro) →
        (runConnTriggers initialConnState ts).2.get? 0 = some true) := by
  constructor
  · intro i hi
    cases ts with
    | nil => simp [runConnTriggers] at hi
    | cons t ts2 =>
      cases i with
      | zero => rfl
      | succ j =>
        exfalso
        simp only [runConnTriggers, List.get?_cons_succ] at hi
        exact runConnTriggers_no_connectCall ts2 (connTriggerStep initialConnState t).1
          (fun k o ro => hw (k + 1) o ro (by omega)) j hi
  · intro ro h0
    cases ts with
    | nil => simp at h0
    | cons t ts2 =>
      simp only [List.get?_cons_zero, Option.some.injEq] at h0
      subst h0
      simp [runConnTriggers, connTriggerStep, connect, initialConnState]

theorem connect_error_surfaced_only_first_witness :
    (runConnTriggers initialConnState
      [.connectCall false (fun _ => false), .connError (fun _ => false)]).2.get? 0
        = some true
    ∧ (∀ i, (runConnTriggers initialConnState
        [.connectCall false (fun _ => false), .connError (fun _ => false)]).2.get? i
          = some true → i = 0) := by
  have h := connect_error_surfaced_only_first
    [.connectCall false (fun _ => false), .connError (fun _ => false)]
    (by
      intro i o ro hi
      match i with
      | 1 => simp
      | n + 2 => simp)
  exact ⟨h.2 (fun _ => false) rfl, h.1⟩
